import Mathlib

/-!
Verification of the poiidx geospatial resolution pipeline.

The definitions below embed, in Lean, the parts of the repository that the
verified properties talk about:

* `get_administrative_hierarchy` / `get_administrative_hierarchy_string`
  (src/poiidx/poiIdx.py) — the hierarchy assembler: the storage collaborator's
  covers query is represented by its result, a list of `Boundary` records
  ordered by `admin_level` descending, and the external country lookup
  (`country_query`) is an abstract function `Boundary → Option String`.
* `poi_scan` / `administrative_scan` (src/poiidx/scanner.py) — the per-entity
  classification loops, with the osmium entity stream represented as a list of
  `Entity` values, rank computation (osm.py, not part of the sources) as an
  abstract function `Entity → Option Int`, and the storage transaction
  (`db.atomic()`) as `runAtomic` over a fallible insert function.
* `RegionFinder.find_regions` (regionFinder.py, not part of the sources) —
  modelled from the spec, with descent instrumentation.
-/

namespace PoiIdx

/-- An administrative boundary row as returned by the covers query
(administrativeBoundary.py); `coordinates` and `wikidata_id` are nullable. -/
structure Boundary where
  osm_id : Int
  name : String
  region : String
  admin_level : Int
  coordinates : Option String
  wikidata_id : Option String
deriving DecidableEq

/-- The synthetic country entry built in `get_administrative_hierarchy`
(poiIdx.py lines 182-189). -/
def mkCountryEntry (name : String) : Boundary :=
  { osm_id := 0
    name := name
    region := "global"
    admin_level := 2
    coordinates := none
    wikidata_id := none }

/-- The candidate-selection loop of `get_administrative_hierarchy`
(poiIdx.py lines 173-177): iterate over `reversed(hierarchy)` and stop at the
first entry whose `wikidata_id` is not None. -/
def countryCandidate (hierarchy : List Boundary) : Option Boundary :=
  hierarchy.reverse.find? (fun a => a.wikidata_id.isSome)

/-- `PoiIdx.get_administrative_hierarchy` (poiIdx.py lines 154-192), as a
function of the covers-query result and of the external `country_query`
collaborator. -/
def get_administrative_hierarchy (country_query : Boundary → Option String)
    (hierarchy : List Boundary) : List Boundary :=
  if hierarchy.any (fun x => x.admin_level = 2) then hierarchy
  else
    match countryCandidate hierarchy with
    | some adm =>
      if adm.admin_level ≤ 6 then
        match country_query adm with
        | some name => hierarchy ++ [mkCountryEntry name]
        | none => hierarchy
      else hierarchy
    | none => hierarchy

/-- The name-collapsing loop of `get_administrative_hierarchy_string`
(poiIdx.py lines 201-206), with the running `last_name` made explicit. -/
def collapseGo (last : Option String) : List Boundary → List String
  | [] => []
  | b :: bs =>
    if some b.name ≠ last then b.name :: collapseGo (some b.name) bs
    else collapseGo last bs

/-- Collapse consecutive equal names, starting from `last_name = None`. -/
def collapseNames (bs : List Boundary) : List String :=
  collapseGo none bs

/-- `PoiIdx.get_administrative_hierarchy_string` (poiIdx.py lines 194-207). -/
def get_administrative_hierarchy_string (country_query : Boundary → Option String)
    (hierarchy : List Boundary) : String :=
  String.intercalate ", " (collapseNames (get_administrative_hierarchy country_query hierarchy))

/-- The boundary that `get_administrative_hierarchy` hands to `country_query`,
if any: the loop candidate, kept only when no level-2 entry exists and its
`admin_level` is at most 6 (poiIdx.py lines 168-180). -/
def countryLookupArg (hierarchy : List Boundary) : Option Boundary :=
  if hierarchy.any (fun x => x.admin_level = 2) then none
  else
    match countryCandidate hierarchy with
    | some adm => if adm.admin_level ≤ 6 then some adm else none
    | none => none

/-- Spec-described candidate selection (§4.5): scan the hierarchy from
most-local to most-global (the list is ordered most-local first) for the first
entry carrying a knowledge-base id at a country-plausible admin_level. Written
from the spec's words, for comparison with `countryCandidate`. -/
def specScanCountryCandidate (hierarchy : List Boundary) : Option Boundary :=
  hierarchy.find? (fun a => a.wikidata_id.isSome && a.admin_level ≤ 6)

/-! The scanner (src/poiidx/scanner.py). Tag mappings are association lists;
geometries are kept as abstract serialized blobs (their numeric content plays
no role in any verified property). -/

/-- A filter-expression value in poi_filter_config: `True` means the key must
be present, a string means the tag must equal it exactly. -/
inductive Pred where
  | present : Pred
  | equals : String → Pred
deriving DecidableEq

/-- One filter expression: a mapping from tag key to predicate, as an ordered
association list. -/
structure FilterExpr where
  pairs : List (String × Pred)
deriving DecidableEq

/-- One filter item of the config: a display symbol and an ordered list of
filter expressions. -/
structure FilterItem where
  symbol : String
  filters : List FilterExpr
deriving DecidableEq

/-- An entity's tag mapping, `obj.tags`. -/
abbrev Tags := List (String × String)

/-- `tags.get(k)`: value of the first pair with key `k`, None when absent. -/
def tagsGet (tags : Tags) (k : String) : Option String :=
  (tags.find? (fun p => p.1 = k)).map Prod.snd

/-- One conjunct of the match list in poi_scan (scanner.py line 76):
`(poi_tags.get(k)) if v is True else (poi_tags.get(k) == v)`, under Python
truthiness — for `present` the fetched value must be a non-empty string. -/
def predMatches (tags : Tags) (k : String) (p : Pred) : Bool :=
  match p with
  | .present =>
    match tagsGet tags k with
    | some v => v ≠ ""
    | none => false
  | .equals v => tagsGet tags k = some v

/-- `all(matches)` over one filter expression (scanner.py lines 75-79). -/
def exprMatches (tags : Tags) (e : FilterExpr) : Bool :=
  e.pairs.all (fun kp => predMatches tags kp.1 kp.2)

/-- The inner loop of poi_scan (scanner.py lines 71-81): index of the first
matching filter expression of one item. -/
def findExprMatch (tags : Tags) : List FilterExpr → Option Nat
  | [] => none
  | e :: es =>
    if exprMatches tags e then some 0
    else (findExprMatch tags es).map (· + 1)

/-- The outer loop of poi_scan (scanner.py lines 70-83): the first item with a
matching expression, together with the matched indices; the loop variable
`filter_item` keeps the matched item, whose symbol poi_scan stores. -/
def findFilterMatch (tags : Tags) : List FilterItem → Option (Nat × Nat × FilterItem)
  | [] => none
  | it :: its =>
    match findExprMatch tags it.filters with
    | some j => some (0, j, it)
    | none => (findFilterMatch tags its).map (fun p => (p.1 + 1, p.2.1, p.2.2))

/-- A streamed osmium entity: stable id, tag mapping, the `type_str()`
discriminator ("n" for nodes), the optional `__geo_interface__` geometry, and
the `Point(obj.lon, obj.lat)` geometry used when the entity is a node. -/
structure Entity where
  id : Option Int
  tags : Tags
  type_str : String
  geo_interface : Option String
  node_point : String
deriving DecidableEq

/-- A row of the Poi table as created by poi_scan (scanner.py lines 117-126). -/
structure PoiRecord where
  osm_id : Int
  name : String
  region : String
  filter_item : Nat
  filter_expression : Nat
  rank : Int
  coordinates : String
  symbol : String
deriving DecidableEq

/-- The per-entity body of the poi_scan loop (scanner.py lines 58-126), as a
function yielding the record to create, or none when the entity is skipped.
`calculate_rank_place` abstracts `calculate_rank(place=...)` for nodes and
`calculate_rank_radius` abstracts the `LocalProjection` +
`minimum_bounding_radius` + `calculate_rank(radius=..., place=...)` pipeline
for extended geometries (both live in modules outside the sources);
`max_rank` is the `MAX_RANK` constant. -/
def poiStep (calculate_rank_place : Option String → Option Int)
    (calculate_rank_radius : String → Option String → Option Int)
    (max_rank : Int) (region_key : String) (filter_config : List FilterItem)
    (e : Entity) : Option PoiRecord :=
  match e.id with
  | none => none
  | some poi_id =>
    match tagsGet e.tags "name" with
    | none => none
    | some poi_name =>
      match findFilterMatch e.tags filter_config with
      | none => none
      | some (i, j, it) =>
        if e.type_str = "n" then
          some { osm_id := poi_id, name := poi_name, region := region_key
                 filter_item := i, filter_expression := j
                 rank := (calculate_rank_place (tagsGet e.tags "place")).getD max_rank
                 coordinates := e.node_point, symbol := it.symbol }
        else
          match e.geo_interface with
          | none => none
          | some geom =>
            some { osm_id := poi_id, name := poi_name, region := region_key
                   filter_item := i, filter_expression := j
                   rank := (calculate_rank_radius geom (tagsGet e.tags "place")).getD max_rank
                   coordinates := geom, symbol := it.symbol }

/-- A row of the AdministrativeBoundary table as created by administrative_scan
(scanner.py lines 35-42); `admin_level` is the raw tag string, the integer
conversion being the storage collaborator's. -/
structure AdminRecord where
  osm_id : Option Int
  name : String
  region : String
  admin_level : String
  coordinates : String
  wikidata_id : Option String
deriving DecidableEq

/-- The per-entity body of the administrative_scan loop (scanner.py lines
23-42). -/
def adminStep (region_key : String) (e : Entity) : Option AdminRecord :=
  match e.geo_interface with
  | none => none
  | some geom =>
    match tagsGet e.tags "admin_level", tagsGet e.tags "name" with
    | some admin_level, some name =>
      some { osm_id := e.id, name := name, region := region_key
             admin_level := admin_level, coordinates := geom
             wikidata_id := tagsGet e.tags "wikidata" }
    | some _, none => none
    | none, _ => none

/-- The body of a scan transaction: stream the entities, creating a record for
each non-skipped one through the fallible insert `ins`; a failed insert aborts
the rest of the stream with that error. -/
def scanBody {α ρ σ ε : Type} (step : α → Option ρ) (ins : σ → ρ → Except ε σ) :
    List α → σ → Except ε σ
  | [], s => .ok s
  | e :: es, s =>
    match step e with
    | none => scanBody step ins es s
    | some r =>
      match ins s r with
      | .ok s' => scanBody step ins es s'
      | .error err => .error err

/-- `with db.atomic():` around a fallible body: on success the new state is
visible; on error the error propagates and the visible state rolls back to the
state at entry. -/
def runAtomic {σ ε : Type} (body : σ → Except ε σ) (s : σ) : Except ε σ × σ :=
  match body s with
  | .ok s' => (.ok s', s')
  | .error err => (.error err, s)

/-- `poi_scan` (scanner.py lines 44-126): one atomic transaction around the
whole entity stream. -/
def poi_scan {σ ε : Type} (calculate_rank_place : Option String → Option Int)
    (calculate_rank_radius : String → Option String → Option Int)
    (max_rank : Int) (filter_config : List FilterItem) (region_key : String)
    (ins : σ → PoiRecord → Except ε σ) (entities : List Entity) (s : σ) :
    Except ε σ × σ :=
  runAtomic
    (scanBody
      (poiStep calculate_rank_place calculate_rank_radius max_rank region_key filter_config)
      ins entities) s

/-- `administrative_scan` (scanner.py lines 14-42): one atomic transaction
around the whole entity stream. -/
def administrative_scan {σ ε : Type} (region_key : String)
    (ins : σ → AdminRecord → Except ε σ) (entities : List Entity) (s : σ) :
    Except ε σ × σ :=
  runAtomic (scanBody (adminStep region_key) ins entities) s

/-- Sequential insertion of a list of records through a fallible insert; the
success-path shape of a scan transaction body. -/
def insertAll {ρ σ ε : Type} (ins : σ → ρ → Except ε σ) : List ρ → σ → Except ε σ
  | [], s => .ok s
  | r :: rs, s =>
    match ins s r with
    | .ok s' => insertAll ins rs s'
    | .error err => .error err

/-- Whether filter item `i`, expression `j` of the config fully matches the
tags; out-of-range indices match nothing. -/
def exprMatchesAt (filter_config : List FilterItem) (tags : Tags) (i j : Nat) : Bool :=
  match filter_config.get? i with
  | none => false
  | some it =>
    match it.filters.get? j with
    | none => false
    | some ex => exprMatches tags ex

/-! The region catalog lookup (regionFinder.py, not among the sources): the
shape of the service is modelled from the spec, §4.1 and the §3/§9 notes on
the lookup cache and the canonical shape key. -/

/-- A query shape as handed to `find_regions`: an object identity plus the
geometry content. Two shapes are geometrically equal when their contents
agree, whatever their identities. -/
structure Shape where
  oid : Nat
  content : String
deriving DecidableEq

/-- Modelled from the spec: the canonical shape key (§3, §9) is a
deterministic serialization of the geometry content alone, independent of
object identity; regionFinder.py is not among the sources. -/
def canonicalKey (s : Shape) : String :=
  s.content

/-- Modelled from the spec: a node of the hierarchical region catalog (§3),
with a key, a geometry/envelope, and ordered children; regionFinder.py is not
among the sources. -/
inductive RegionNode where
  | mk : String → String → List RegionNode → RegionNode

mutual

/-- Modelled from the spec: the depth-first descent of `find_regions` (§4.1) —
test the node's geometry against the query shape through the intersection
oracle `its`; an intersecting leaf is a result, an intersecting inner node is
recursed into; returns the matched keys in order and the number of catalog
nodes visited. regionFinder.py is not among the sources. -/
def findRegionsNode (its : String → String → Bool) (sh : String) :
    RegionNode → List String × Nat
  | .mk key geom children =>
    if its sh geom then
      match children with
      | [] => ([key], 1)
      | c :: cs =>
        let r := findRegionsList its sh (c :: cs)
        (r.1, r.2 + 1)
    else ([], 1)

/-- Modelled from the spec: descent over a list of sibling catalog nodes,
concatenating results and adding up visit counts. -/
def findRegionsList (its : String → String → Bool) (sh : String) :
    List RegionNode → List String × Nat
  | [] => ([], 0)
  | n :: ns =>
    let r₁ := findRegionsNode its sh n
    let r₂ := findRegionsList its sh ns
    (r₁.1 ++ r₂.1, r₁.2 + r₂.2)

end

/-- Modelled from the spec: the memoized catalog lookup service (§4.1, §9) —
the catalog roots plus the append-only region lookup cache keyed by canonical
shape key. regionFinder.py is not among the sources. -/
structure RegionFinder where
  roots : List RegionNode
  cache : List (String × List String)

/-- Modelled from the spec: `find_regions` (§4.1) — serve a repeated canonical
shape key from the cache without descending the tree, otherwise descend and
memoize. Returns the region keys, the updated finder, and the number of
catalog nodes visited (0 when served from cache). regionFinder.py is not
among the sources. -/
def find_regions (its : String → String → Bool) (f : RegionFinder) (s : Shape) :
    List String × RegionFinder × Nat :=
  match f.cache.lookup (canonicalKey s) with
  | some keys => (keys, f, 0)
  | none =>
    let r := findRegionsList its (canonicalKey s) f.roots
    (r.1, ⟨f.roots, (canonicalKey s, r.1) :: f.cache⟩, r.2)

/-! Theorems. -/

/-- The hierarchy assembler, factored through the candidate it hands to the
external country lookup: the synthetic entry is appended exactly when
`countryLookupArg` yields a candidate and the lookup resolves a name. -/
theorem get_administrative_hierarchy_eq_countryLookupArg
    (country_query : Boundary → Option String) (hierarchy : List Boundary) :
    get_administrative_hierarchy country_query hierarchy =
      match countryLookupArg hierarchy with
      | some adm =>
        match country_query adm with
        | some n => hierarchy ++ [mkCountryEntry n]
        | none => hierarchy
      | none => hierarchy := by
  unfold get_administrative_hierarchy countryLookupArg
  by_cases h2 : hierarchy.any (fun x => decide (x.admin_level = 2)) = true
  · simp [h2]
  · simp only [h2, if_false, Bool.false_eq_true]
    cases hc : countryCandidate hierarchy with
    | none => rfl
    | some adm =>
      by_cases h6 : adm.admin_level ≤ 6
      · simp [h6]
      · simp [h6]

/-- The name-collapsing loop never leaves two adjacent equal names, and its
head never repeats the incoming `last_name`. -/
theorem collapseGo_chain_ne :
    ∀ (bs : List Boundary) (last : Option String),
      List.Chain' (fun a b : String => a ≠ b) (collapseGo last bs)
      ∧ ∀ x, (collapseGo last bs).head? = some x → some x ≠ last := by
  intro bs
  induction bs with
  | nil => intro last; exact ⟨List.chain'_nil, by intro x hx; simp [collapseGo] at hx⟩
  | cons b bs ih =>
    intro last
    by_cases hb : some b.name ≠ last
    · simp only [collapseGo, if_pos hb]
      refine ⟨List.chain'_cons'.2 ⟨?_, (ih (some b.name)).1⟩, ?_⟩
      · intro y hy
        have := (ih (some b.name)).2 y hy
        intro hxy
        exact this (by rw [hxy])
      · intro x hx
        simp only [List.head?_cons, Option.some.injEq] at hx
        subst hx
        exact hb
    · simp only [collapseGo, if_neg hb]
      exact ih last

/-- Claim C10: when the covers query returns no containing boundaries, the
hierarchy is the empty list — no synthetic country entry and no error — and
the hierarchy string is the empty string. -/
theorem C10_empty_covers_empty_hierarchy (country_query : Boundary → Option String) :
    get_administrative_hierarchy country_query [] = []
    ∧ get_administrative_hierarchy_string country_query [] = "" := by
  constructor
  · rfl
  · rfl

/-- Claim C5: a synthetic country entry, when added, has admin_level exactly
2, no backing geometry and no external id, and is appended at the end of the
returned list; when a returned boundary already has admin_level 2, the list is
returned as-is. -/
theorem C5_synthetic_country_entry (country_query : Boundary → Option String)
    (hierarchy : List Boundary) :
    ((∃ b ∈ hierarchy, b.admin_level = 2) →
      get_administrative_hierarchy country_query hierarchy = hierarchy)
    ∧ (get_administrative_hierarchy country_query hierarchy = hierarchy
       ∨ ∃ n, get_administrative_hierarchy country_query hierarchy
              = hierarchy ++ [mkCountryEntry n]
            ∧ (mkCountryEntry n).admin_level = 2
            ∧ (mkCountryEntry n).coordinates = none
            ∧ (mkCountryEntry n).wikidata_id = none) := by
  have hL := get_administrative_hierarchy_eq_countryLookupArg country_query hierarchy
  constructor
  · rintro ⟨b, hb, hb2⟩
    have hany : hierarchy.any (fun x => decide (x.admin_level = 2)) = true :=
      List.any_eq_true.2 ⟨b, hb, by simp [hb2]⟩
    have harg : countryLookupArg hierarchy = none := by
      unfold countryLookupArg
      simp [hany]
    rw [hL, harg]
  · rw [hL]
    cases countryLookupArg hierarchy with
    | none => exact Or.inl rfl
    | some adm =>
      cases hq : country_query adm with
      | none => exact Or.inl (by simp [hq])
      | some n => exact Or.inr ⟨n, by simp [hq], rfl, rfl, rfl⟩

/-- Claim C1 (amended): for a covers result ordered non-increasing in
admin_level whose levels are all at least 2 (level 2, the country, is the top
of the data model), the returned hierarchy is ordered non-increasing in
admin_level on every return path; the no-adjacent-equal-names guarantee is
enforced by the name collapsing inside get_administrative_hierarchy_string,
not on the list returned by get_administrative_hierarchy. -/
theorem C1_hierarchy_ordering (country_query : Boundary → Option String)
    (hierarchy : List Boundary)
    (hsort : List.Chain' (fun a b => b.admin_level ≤ a.admin_level) hierarchy)
    (hlev : ∀ b ∈ hierarchy, 2 ≤ b.admin_level) :
    List.Chain' (fun a b => b.admin_level ≤ a.admin_level)
      (get_administrative_hierarchy country_query hierarchy)
    ∧ List.Chain' (fun a b : String => a ≠ b)
        (collapseNames (get_administrative_hierarchy country_query hierarchy)) := by
  refine ⟨?_, (collapseGo_chain_ne _ none).1⟩
  rw [get_administrative_hierarchy_eq_countryLookupArg]
  cases harg : countryLookupArg hierarchy with
  | none => exact hsort
  | some adm =>
    cases hq : country_query adm with
    | none => simpa [hq] using hsort
    | some n =>
      have hred :
          (match countryLookupArg hierarchy with
            | some adm =>
              match country_query adm with
              | some n => hierarchy ++ [mkCountryEntry n]
              | none => hierarchy
            | none => hierarchy)
          = hierarchy ++ [mkCountryEntry n] := by
        rw [harg]
        simp [hq]
      rw [harg] at hred
      rw [hred, List.chain'_append]
      refine ⟨hsort, List.chain'_singleton _, ?_⟩
      intro x hx y hy
      obtain ⟨hne, hxe⟩ := List.mem_getLast?_eq_getLast hx
      have hxm : x ∈ hierarchy := hxe ▸ List.getLast_mem hne
      have hy' : y = mkCountryEntry n := by
        simp only [List.head?_cons, Option.mem_def, Option.some.injEq] at hy
        exact hy.symm
      subst hy'
      exact hlev x hxm

/-- Claim C1 fails as stated: for the single covers-query result "Germany" at
admin_level 4 carrying a knowledge-base id, with the external lookup resolving
the country name "Germany", get_administrative_hierarchy returns two adjacent
entries both named "Germany" (the list is not deduplicated by name). -/
theorem C1_counterexample :
    ¬ (List.Chain' (fun a b => b.admin_level ≤ a.admin_level)
        (get_administrative_hierarchy (fun _ => some "Germany")
          [⟨1, "Germany", "europe", 4, some "poly", some "Q183"⟩])
       ∧ List.Chain' (fun a b : Boundary => a.name ≠ b.name)
        (get_administrative_hierarchy (fun _ => some "Germany")
          [⟨1, "Germany", "europe", 4, some "poly", some "Q183"⟩])) := by
  intro h
  have hout : get_administrative_hierarchy (fun _ => some "Germany")
        [⟨1, "Germany", "europe", 4, some "poly", some "Q183"⟩]
      = [⟨1, "Germany", "europe", 4, some "poly", some "Q183"⟩,
         mkCountryEntry "Germany"] := rfl
  rw [hout] at h
  exact (List.chain'_cons.1 h.2).1 rfl

/-- Concrete instance of the amended C1: a Berlin-like two-level hierarchy
with a knowledge-base id on the level-4 entry, resolved to "Germany". -/
theorem C1_witness :
    List.Chain' (fun a b => b.admin_level ≤ a.admin_level)
      (get_administrative_hierarchy (fun _ => some "Germany")
        [⟨1, "Mitte", "europe", 10, some "poly", none⟩,
         ⟨2, "Berlin", "europe", 4, some "poly", some "Q64"⟩])
    ∧ List.Chain' (fun a b : String => a ≠ b)
        (collapseNames
          (get_administrative_hierarchy (fun _ => some "Germany")
            [⟨1, "Mitte", "europe", 10, some "poly", none⟩,
             ⟨2, "Berlin", "europe", 4, some "poly", some "Q64"⟩])) :=
  C1_hierarchy_ordering (fun _ => some "Germany")
    [⟨1, "Mitte", "europe", 10, some "poly", none⟩,
     ⟨2, "Berlin", "europe", 4, some "poly", some "Q64"⟩]
    (List.chain'_pair.2 (by norm_num)) (by decide)

/-- A successful find? splits its list at the found element, everything before
it failing the predicate. -/
theorem find?_split {α : Type} (p : α → Bool) :
    ∀ (l : List α) (a : α), l.find? p = some a →
      p a = true ∧ ∃ l₁ l₂, l = l₁ ++ a :: l₂ ∧ ∀ b ∈ l₁, p b = false := by
  intro l
  induction l with
  | nil => intro a h; simp at h
  | cons x xs ih =>
    intro a h
    by_cases hx : p x = true
    · rw [List.find?_cons_of_pos _ hx, Option.some.injEq] at h
      subst h
      exact ⟨hx, [], xs, rfl, by simp⟩
    · rw [List.find?_cons_of_neg _ (by simpa using hx)] at h
      obtain ⟨hpa, l₁, l₂, rfl, hl₁⟩ := ih a h
      refine ⟨hpa, x :: l₁, l₂, rfl, ?_⟩
      intro b hb
      rcases List.mem_cons.1 hb with rfl | hb
      · exact Bool.eq_false_iff.2 (fun hc => hx hc)
      · exact hl₁ b hb

/-- Claim C4 (amended): the country-fallback candidate is found by scanning
the hierarchy from most-global to most-local (the reverse of the returned
order) and taking the first entry that carries a knowledge-base id; it is
passed to the external lookup only when no level-2 entry exists and its
admin_level is at most the country-plausible threshold 6, and the lookup is
invoked on exactly that candidate. -/
theorem C4_country_candidate (hierarchy : List Boundary) (adm : Boundary)
    (h : countryLookupArg hierarchy = some adm) :
    adm ∈ hierarchy
    ∧ adm.wikidata_id.isSome = true
    ∧ adm.admin_level ≤ 6
    ∧ (∀ b ∈ hierarchy, b.admin_level ≠ 2)
    ∧ (∃ pre post, hierarchy.reverse = pre ++ adm :: post
        ∧ ∀ b ∈ pre, b.wikidata_id = none)
    ∧ (∀ country_query : Boundary → Option String,
        get_administrative_hierarchy country_query hierarchy =
          match country_query adm with
          | some n => hierarchy ++ [mkCountryEntry n]
          | none => hierarchy) := by
  unfold countryLookupArg at h
  by_cases h2 : hierarchy.any (fun x => decide (x.admin_level = 2)) = true
  · rw [if_pos h2] at h
    exact absurd h (by simp)
  · rw [if_neg h2] at h
    have hno2 : ∀ b ∈ hierarchy, b.admin_level ≠ 2 := by
      intro b hb
      have := (List.any_eq_false).1 (Bool.eq_false_iff.2 h2)
      simpa using this b hb
    cases hc : countryCandidate hierarchy with
    | none => rw [hc] at h; exact absurd h (by simp)
    | some a =>
      rw [hc] at h
      have h' : (if a.admin_level ≤ 6 then some a else none) = some adm := h
      by_cases h6 : a.admin_level ≤ 6
      · rw [if_pos h6, Option.some.injEq] at h'
        subst h'
        obtain ⟨hpa, pre, post, hsplit, hpre⟩ :=
          find?_split (fun b => b.wikidata_id.isSome) hierarchy.reverse a
            (by simpa [countryCandidate] using hc)
        refine ⟨?_, hpa, h6, hno2, ⟨pre, post, hsplit, ?_⟩, ?_⟩
        · have ha : a ∈ hierarchy.reverse := by
            rw [hsplit]; exact List.mem_append_right _ (List.mem_cons_self _ _)
          exact List.mem_reverse.1 ha
        · intro b hb
          have hf := hpre b hb
          cases hw : b.wikidata_id with
          | none => rfl
          | some w => rw [hw] at hf; simp at hf
        · intro country_query
          rw [get_administrative_hierarchy_eq_countryLookupArg]
          have harg : countryLookupArg hierarchy = some a := by
            unfold countryLookupArg
            rw [if_neg h2, hc]
            exact h
          rw [harg]
      · rw [if_neg h6] at h'
        exact absurd h' (by simp)

/-- Claim C4 fails as stated: with two knowledge-base ids at admin_levels 6
and 3, the code's candidate is the most-global entry (level 3), not the
most-local plausible one (level 6) that the spec's scan direction selects, and
the country appended comes from the level-3 entry's lookup. -/
theorem C4_counterexample :
    countryLookupArg
        [⟨1, "A", "r", 6, some "poly", some "QA"⟩,
         ⟨2, "B", "r", 3, some "poly", some "QB"⟩]
      ≠ specScanCountryCandidate
        [⟨1, "A", "r", 6, some "poly", some "QA"⟩,
         ⟨2, "B", "r", 3, some "poly", some "QB"⟩]
    ∧ countryLookupArg
        [⟨1, "A", "r", 6, some "poly", some "QA"⟩,
         ⟨2, "B", "r", 3, some "poly", some "QB"⟩]
      = some ⟨2, "B", "r", 3, some "poly", some "QB"⟩
    ∧ specScanCountryCandidate
        [⟨1, "A", "r", 6, some "poly", some "QA"⟩,
         ⟨2, "B", "r", 3, some "poly", some "QB"⟩]
      = some ⟨1, "A", "r", 6, some "poly", some "QA"⟩
    ∧ get_administrative_hierarchy
        (fun b => if b.name = "A" then some "CountryA" else some "CountryB")
        [⟨1, "A", "r", 6, some "poly", some "QA"⟩,
         ⟨2, "B", "r", 3, some "poly", some "QB"⟩]
      = [⟨1, "A", "r", 6, some "poly", some "QA"⟩,
         ⟨2, "B", "r", 3, some "poly", some "QB"⟩,
         mkCountryEntry "CountryB"] := by
  refine ⟨?_, rfl, rfl, rfl⟩
  decide

/-- Concrete instance of the amended C4, at the same two-entry hierarchy. -/
theorem C4_witness :
    (⟨2, "B", "r", 3, some "poly", some "QB"⟩ : Boundary) ∈
      [⟨1, "A", "r", 6, some "poly", some "QA"⟩,
       (⟨2, "B", "r", 3, some "poly", some "QB"⟩ : Boundary)]
    ∧ (Boundary.wikidata_id ⟨2, "B", "r", 3, some "poly", some "QB"⟩).isSome = true
    ∧ Boundary.admin_level ⟨2, "B", "r", 3, some "poly", some "QB"⟩ ≤ 6
    ∧ (∀ b ∈ [⟨1, "A", "r", 6, some "poly", some "QA"⟩,
              (⟨2, "B", "r", 3, some "poly", some "QB"⟩ : Boundary)],
        b.admin_level ≠ 2)
    ∧ (∃ pre post,
        List.reverse
            [⟨1, "A", "r", 6, some "poly", some "QA"⟩,
             (⟨2, "B", "r", 3, some "poly", some "QB"⟩ : Boundary)]
          = pre ++ ⟨2, "B", "r", 3, some "poly", some "QB"⟩ :: post
        ∧ ∀ b ∈ pre, b.wikidata_id = none)
    ∧ (∀ country_query : Boundary → Option String,
        get_administrative_hierarchy country_query
            [⟨1, "A", "r", 6, some "poly", some "QA"⟩,
             ⟨2, "B", "r", 3, some "poly", some "QB"⟩] =
          match country_query ⟨2, "B", "r", 3, some "poly", some "QB"⟩ with
          | some n =>
            [⟨1, "A", "r", 6, some "poly", some "QA"⟩,
             ⟨2, "B", "r", 3, some "poly", some "QB"⟩] ++ [mkCountryEntry n]
          | none =>
            [⟨1, "A", "r", 6, some "poly", some "QA"⟩,
             ⟨2, "B", "r", 3, some "poly", some "QB"⟩]) :=
  C4_country_candidate
    [⟨1, "A", "r", 6, some "poly", some "QA"⟩,
     ⟨2, "B", "r", 3, some "poly", some "QB"⟩]
    ⟨2, "B", "r", 3, some "poly", some "QB"⟩ rfl

/-- Claim C3 fails as stated: the tag key "amenity" exists with the
empty-string value, yet the "present" predicate does not match it — the match
uses the truthiness of the fetched value, so an empty string fails. -/
theorem C3_counterexample :
    (tagsGet [("amenity", "")] "amenity").isSome = true
    ∧ predMatches [("amenity", "")] "amenity" Pred.present = false
    ∧ exprMatches [("amenity", "")] ⟨[("amenity", Pred.present)]⟩ = false := by
  refine ⟨rfl, rfl, rfl⟩

/-- Claim C3 (amended): a "present" predicate matches the entity iff the tag
key exists with a non-empty value (Python truthiness of the fetched string),
and an "equals v" predicate matches iff the tag value equals v exactly. -/
theorem C3_predicate_semantics (tags : Tags) (k v : String) :
    (predMatches tags k Pred.present = true
      ↔ ∃ w, tagsGet tags k = some w ∧ w ≠ "")
    ∧ (predMatches tags k (Pred.equals v) = true ↔ tagsGet tags k = some v) := by
  constructor
  · unfold predMatches
    cases h : tagsGet tags k with
    | none => simp
    | some w => simp
  · unfold predMatches
    simp

/-- Inversion of a successful poiStep: the stored fields come from the first
filter match, and the rank is the computed rank with max_rank substituted for
the unranked sentinel. -/
theorem poiStep_some_inv (crp : Option String → Option Int)
    (crr : String → Option String → Option Int) (mr : Int) (rk : String)
    (cfg : List FilterItem) (e : Entity) (r : PoiRecord)
    (h : poiStep crp crr mr rk cfg e = some r) :
    ∃ pid nm i j it,
      e.id = some pid
      ∧ tagsGet e.tags "name" = some nm
      ∧ findFilterMatch e.tags cfg = some (i, j, it)
      ∧ r.filter_item = i ∧ r.filter_expression = j ∧ r.symbol = it.symbol
      ∧ r.osm_id = pid ∧ r.name = nm ∧ r.region = rk
      ∧ ((e.type_str = "n"
            ∧ r.rank = (crp (tagsGet e.tags "place")).getD mr
            ∧ r.coordinates = e.node_point)
         ∨ (¬ e.type_str = "n"
            ∧ ∃ geom, e.geo_interface = some geom
              ∧ r.rank = (crr geom (tagsGet e.tags "place")).getD mr
              ∧ r.coordinates = geom)) := by
  unfold poiStep at h
  split at h
  · exact absurd h (by simp)
  next pid hid =>
    split at h
    · exact absurd h (by simp)
    next nm hnm =>
      split at h
      · exact absurd h (by simp)
      next i j it hmatch =>
        split at h
        next htyp =>
          injection h with h
          subst h
          exact ⟨pid, nm, i, j, it, hid, hnm, hmatch, rfl, rfl, rfl, rfl, rfl, rfl,
            Or.inl ⟨htyp, rfl, rfl⟩⟩
        next htyp =>
          split at h
          · exact absurd h (by simp)
          next geom hgeom =>
            injection h with h
            subst h
            exact ⟨pid, nm, i, j, it, hid, hnm, hmatch, rfl, rfl, rfl, rfl, rfl, rfl,
              Or.inr ⟨htyp, geom, hgeom, rfl, rfl⟩⟩

/-- Claim C7: when the rank computation yields the unranked sentinel (no
value), poi_scan substitutes the maximum lowest-priority rank before
persisting, so the stored rank is always the computed rank with max_rank as
the default. -/
theorem C7_unranked_defaults_to_max (crp : Option String → Option Int)
    (crr : String → Option String → Option Int) (mr : Int) (rk : String)
    (cfg : List FilterItem) (e : Entity) (r : PoiRecord)
    (h : poiStep crp crr mr rk cfg e = some r) :
    (e.type_str = "n" →
       r.rank = (crp (tagsGet e.tags "place")).getD mr
       ∧ (crp (tagsGet e.tags "place") = none → r.rank = mr))
    ∧ (e.type_str ≠ "n" →
       ∃ geom, e.geo_interface = some geom
         ∧ r.rank = (crr geom (tagsGet e.tags "place")).getD mr
         ∧ (crr geom (tagsGet e.tags "place") = none → r.rank = mr)) := by
  obtain ⟨pid, nm, i, j, it, hid, hnm, hmatch, _, _, _, _, _, _, hbranch⟩ :=
    poiStep_some_inv crp crr mr rk cfg e r h
  rcases hbranch with ⟨htyp, hrank, hcoord⟩ | ⟨htyp, geom, hgeom, hrank, hcoord⟩
  · refine ⟨fun _ => ⟨hrank, fun hn => ?_⟩, fun hne => absurd htyp hne⟩
    rw [hrank, hn]
    rfl
  · refine ⟨fun hn => absurd hn htyp, fun _ => ⟨geom, hgeom, hrank, fun hn => ?_⟩⟩
    rw [hrank, hn]
    rfl

/-- Concrete instance of C7: a node entity whose rank computation yields no
bucket is stored with the substituted maximum rank 30. -/
theorem C7_witness :
    ((Entity.type_str ⟨some 3, [("name", "N")], "n", none, "pt"⟩) = "n" →
       PoiRecord.rank ⟨3, "N", "r", 0, 0, 30, "pt", "s"⟩
           = ((fun _ => none : Option String → Option Int)
               (tagsGet (Entity.tags ⟨some 3, [("name", "N")], "n", none, "pt"⟩) "place")).getD 30
       ∧ ((fun _ => none : Option String → Option Int)
             (tagsGet (Entity.tags ⟨some 3, [("name", "N")], "n", none, "pt"⟩) "place") = none →
           PoiRecord.rank ⟨3, "N", "r", 0, 0, 30, "pt", "s"⟩ = 30))
    ∧ ((Entity.type_str ⟨some 3, [("name", "N")], "n", none, "pt"⟩) ≠ "n" →
       ∃ geom, Entity.geo_interface ⟨some 3, [("name", "N")], "n", none, "pt"⟩ = some geom
         ∧ PoiRecord.rank ⟨3, "N", "r", 0, 0, 30, "pt", "s"⟩
             = ((fun _ _ => none : String → Option String → Option Int) geom
                 (tagsGet (Entity.tags ⟨some 3, [("name", "N")], "n", none, "pt"⟩) "place")).getD 30
         ∧ ((fun _ _ => none : String → Option String → Option Int) geom
               (tagsGet (Entity.tags ⟨some 3, [("name", "N")], "n", none, "pt"⟩) "place") = none →
             PoiRecord.rank ⟨3, "N", "r", 0, 0, 30, "pt", "s"⟩ = 30)) :=
  C7_unranked_defaults_to_max (fun _ => none) (fun _ _ => none) 30 "r"
    [⟨"s", [⟨[]⟩]⟩] ⟨some 3, [("name", "N")], "n", none, "pt"⟩
    ⟨3, "N", "r", 0, 0, 30, "pt", "s"⟩ rfl

/-- Removing from the stream an entity the step skips leaves the transaction
body unchanged. -/
theorem scanBody_skip {α ρ σ ε : Type} (step : α → Option ρ)
    (ins : σ → ρ → Except ε σ) (e : α) (hstep : step e = none) :
    ∀ (es₁ es₂ : List α) (s : σ),
      scanBody step ins (es₁ ++ e :: es₂) s = scanBody step ins (es₁ ++ es₂) s := by
  intro es₁
  induction es₁ with
  | nil =>
    intro es₂ s
    simp only [List.nil_append, scanBody, hstep]
  | cons a as ih =>
    intro es₂ s
    simp only [List.cons_append, scanBody]
    cases ha : step a with
    | none => exact ih es₂ s
    | some ra =>
      cases hi : ins s ra with
      | ok s' => simp only [hi]; exact ih es₂ s'
      | error err => simp only [hi]

/-- Claim C8: an entity lacking a name tag is skipped by both scans — it
yields no POI record and no boundary record, and dropping it from the stream
does not change either transaction. -/
theorem C8_nameless_entity_skipped (crp : Option String → Option Int)
    (crr : String → Option String → Option Int) (mr : Int) (rk : String)
    (cfg : List FilterItem) (region_key : String) (e : Entity)
    (h : tagsGet e.tags "name" = none) :
    poiStep crp crr mr rk cfg e = none
    ∧ adminStep region_key e = none
    ∧ (∀ (σ ε : Type) (ins : σ → PoiRecord → Except ε σ) (es₁ es₂ : List Entity) (s : σ),
        scanBody (poiStep crp crr mr rk cfg) ins (es₁ ++ e :: es₂) s
          = scanBody (poiStep crp crr mr rk cfg) ins (es₁ ++ es₂) s)
    ∧ (∀ (σ ε : Type) (ins : σ → AdminRecord → Except ε σ) (es₁ es₂ : List Entity) (s : σ),
        scanBody (adminStep region_key) ins (es₁ ++ e :: es₂) s
          = scanBody (adminStep region_key) ins (es₁ ++ es₂) s) := by
  have hpoi : poiStep crp crr mr rk cfg e = none := by
    unfold poiStep
    cases e.id with
    | none => rfl
    | some pid => simp [h]
  have hadm : adminStep region_key e = none := by
    unfold adminStep
    cases e.geo_interface with
    | none => rfl
    | some geom =>
      cases hal : tagsGet e.tags "admin_level" with
      | none => simp [h, hal]
      | some al => simp [h, hal]
  exact ⟨hpoi, hadm,
    fun σ ε ins es₁ es₂ s => scanBody_skip _ ins e hpoi es₁ es₂ s,
    fun σ ε ins es₁ es₂ s => scanBody_skip _ ins e hadm es₁ es₂ s⟩

/-- Concrete instance of C8: an entity tagged only with an amenity and no name
is skipped by both scans. -/
theorem C8_witness :
    poiStep (fun _ => some 1) (fun _ _ => some 1) 30 "r"
        [⟨"s", [⟨[("amenity", Pred.present)]⟩]⟩]
        ⟨some 5, [("amenity", "cafe"), ("admin_level", "4")], "n", some "poly", "pt"⟩ = none
    ∧ adminStep "r"
        ⟨some 5, [("amenity", "cafe"), ("admin_level", "4")], "n", some "poly", "pt"⟩ = none
    ∧ (∀ (σ ε : Type) (ins : σ → PoiRecord → Except ε σ) (es₁ es₂ : List Entity) (s : σ),
        scanBody (poiStep (fun _ => some 1) (fun _ _ => some 1) 30 "r"
            [⟨"s", [⟨[("amenity", Pred.present)]⟩]⟩]) ins
            (es₁ ++ ⟨some 5, [("amenity", "cafe"), ("admin_level", "4")], "n", some "poly", "pt"⟩ :: es₂) s
          = scanBody (poiStep (fun _ => some 1) (fun _ _ => some 1) 30 "r"
              [⟨"s", [⟨[("amenity", Pred.present)]⟩]⟩]) ins (es₁ ++ es₂) s)
    ∧ (∀ (σ ε : Type) (ins : σ → AdminRecord → Except ε σ) (es₁ es₂ : List Entity) (s : σ),
        scanBody (adminStep "r") ins
            (es₁ ++ ⟨some 5, [("amenity", "cafe"), ("admin_level", "4")], "n", some "poly", "pt"⟩ :: es₂) s
          = scanBody (adminStep "r") ins (es₁ ++ es₂) s) :=
  C8_nameless_entity_skipped (fun _ => some 1) (fun _ _ => some 1) 30 "r"
    [⟨"s", [⟨[("amenity", Pred.present)]⟩]⟩] "r"
    ⟨some 5, [("amenity", "cafe"), ("admin_level", "4")], "n", some "poly", "pt"⟩ rfl

/-- A transaction that ends in an error leaves the visible state at its value
on entry. -/
theorem runAtomic_error_state {σ ε : Type} (body : σ → Except ε σ) (s : σ) (err : ε)
    (h : (runAtomic body s).1 = .error err) : (runAtomic body s).2 = s := by
  unfold runAtomic at h ⊢
  cases hb : body s with
  | ok s' => rw [hb] at h; exact Except.noConfusion h
  | error e => rfl

/-- A stream in which every entity is skipped leaves the transaction body at
its initial state, successfully. -/
theorem scanBody_all_skipped {α ρ σ ε : Type} (step : α → Option ρ)
    (ins : σ → ρ → Except ε σ) :
    ∀ (entities : List α), (∀ e ∈ entities, step e = none) →
      ∀ s, scanBody step ins entities s = .ok s := by
  intro entities
  induction entities with
  | nil => intro _ s; rfl
  | cons e es ih =>
    intro hall s
    have he : step e = none := hall e (List.mem_cons_self _ _)
    have hrest : ∀ x ∈ es, step x = none := fun x hx => hall x (List.mem_cons_of_mem _ hx)
    simp only [scanBody, he]
    exact ih hrest s

/-- The transaction body inserts exactly the records the step derives from the
stream, in stream order, stopping at the first failed insert. -/
theorem scanBody_eq_insertAll {α ρ σ ε : Type} (step : α → Option ρ)
    (ins : σ → ρ → Except ε σ) :
    ∀ (entities : List α) (s : σ),
      scanBody step ins entities s = insertAll ins (entities.filterMap step) s := by
  intro entities
  induction entities with
  | nil => intro s; rfl
  | cons e es ih =>
    intro s
    cases he : step e with
    | none => simp only [scanBody, he, List.filterMap_cons, ih]
    | some r =>
      simp only [scanBody, he, List.filterMap_cons, insertAll]
      cases hi : ins s r with
      | ok s' => exact ih s'
      | error err => rfl

/-- Claim C6: each scan invocation runs inside one atomic transaction — a
failed insert partway through the stream surfaces the error with the visible
state rolled back to the initial state; a stream with no matching entities
commits successfully with zero records stored; and on the success path the
records written are exactly the matched records of the stream, in order. -/
theorem C6_scan_transactional {σ ε : Type} (crp : Option String → Option Int)
    (crr : String → Option String → Option Int) (mr : Int)
    (cfg : List FilterItem) (rk : String)
    (ins : σ → PoiRecord → Except ε σ) (insAdm : σ → AdminRecord → Except ε σ)
    (entities : List Entity) (s₀ : σ) :
    (∀ err, (poi_scan crp crr mr cfg rk ins entities s₀).1 = .error err →
        (poi_scan crp crr mr cfg rk ins entities s₀).2 = s₀)
    ∧ ((∀ e ∈ entities, poiStep crp crr mr rk cfg e = none) →
        poi_scan crp crr mr cfg rk ins entities s₀ = (.ok s₀, s₀))
    ∧ (poi_scan crp crr mr cfg rk ins entities s₀
        = runAtomic (insertAll ins
            (entities.filterMap (poiStep crp crr mr rk cfg))) s₀)
    ∧ (∀ err, (administrative_scan rk insAdm entities s₀).1 = .error err →
        (administrative_scan rk insAdm entities s₀).2 = s₀)
    ∧ ((∀ e ∈ entities, adminStep rk e = none) →
        administrative_scan rk insAdm entities s₀ = (.ok s₀, s₀))
    ∧ (administrative_scan rk insAdm entities s₀
        = runAtomic (insertAll insAdm (entities.filterMap (adminStep rk))) s₀) := by
  refine ⟨?_, ?_, ?_, ?_, ?_, ?_⟩
  · intro err herr
    exact runAtomic_error_state _ s₀ err herr
  · intro hall
    unfold poi_scan runAtomic
    rw [scanBody_all_skipped _ ins entities hall s₀]
  · unfold poi_scan runAtomic
    rw [scanBody_eq_insertAll]
  · intro err herr
    exact runAtomic_error_state _ s₀ err herr
  · intro hall
    unfold administrative_scan runAtomic
    rw [scanBody_all_skipped _ insAdm entities hall s₀]
  · unfold administrative_scan runAtomic
    rw [scanBody_eq_insertAll]

/-- Inversion of the inner expression loop: a returned index points at the
first matching expression of the item. -/
theorem findExprMatch_some (tags : Tags) :
    ∀ (es : List FilterExpr) (j : Nat), findExprMatch tags es = some j →
      (∃ ex, es.get? j = some ex ∧ exprMatches tags ex = true)
      ∧ ∀ j' ex', j' < j → es.get? j' = some ex' → exprMatches tags ex' = false := by
  intro es
  induction es with
  | nil => intro j h; exact absurd h (by simp [findExprMatch])
  | cons e es ih =>
    intro j h
    by_cases hm : exprMatches tags e = true
    · rw [findExprMatch, if_pos hm, Option.some.injEq] at h
      subst h
      exact ⟨⟨e, rfl, hm⟩, fun j' ex' hj' _ => absurd hj' (by omega)⟩
    · rw [findExprMatch, if_neg hm] at h
      cases hr : findExprMatch tags es with
      | none => rw [hr] at h; exact absurd h (by simp)
      | some j₀ =>
        rw [hr] at h
        simp only [Option.map_some', Option.some.injEq] at h
        subst h
        obtain ⟨⟨ex, hex, hexm⟩, hmin⟩ := ih j₀ hr
        refine ⟨⟨ex, by simpa using hex, hexm⟩, ?_⟩
        intro j' ex' hj' hval
        cases j' with
        | zero =>
          simp only [List.get?_cons_zero, Option.some.injEq] at hval
          subst hval
          simpa using hm
        | succ j'' =>
          exact hmin j'' ex' (by omega) (by simpa using hval)

/-- When the inner expression loop finds nothing, no expression of the item
matches. -/
theorem findExprMatch_none (tags : Tags) :
    ∀ (es : List FilterExpr), findExprMatch tags es = none →
      ∀ j ex, es.get? j = some ex → exprMatches tags ex = false := by
  intro es
  induction es with
  | nil => intro _ j ex hex; simp at hex
  | cons e es ih =>
    intro h j ex hex
    by_cases hm : exprMatches tags e = true
    · rw [findExprMatch, if_pos hm] at h
      exact absurd h (by simp)
    · rw [findExprMatch, if_neg hm] at h
      have hr : findExprMatch tags es = none := by
        cases hr' : findExprMatch tags es with
        | none => rfl
        | some j₀ => rw [hr'] at h; simp at h
      cases j with
      | zero =>
        simp only [List.get?_cons_zero, Option.some.injEq] at hex
        subst hex
        simpa using hm
      | succ j' =>
        exact ih hr j' ex (by simpa using hex)

/-- Inversion of the outer filter loop: the returned triple is the first
matching (item, expression) pair in table order, and the carried item is the
config entry at the returned item index. -/
theorem findFilterMatch_some (tags : Tags) :
    ∀ (cfg : List FilterItem) (i j : Nat) (it : FilterItem),
      findFilterMatch tags cfg = some (i, j, it) →
      cfg.get? i = some it
      ∧ (∃ ex, it.filters.get? j = some ex ∧ exprMatches tags ex = true)
      ∧ (∀ j' ex', j' < j → it.filters.get? j' = some ex' → exprMatches tags ex' = false)
      ∧ (∀ i' it', i' < i → cfg.get? i' = some it' →
          ∀ j' ex', it'.filters.get? j' = some ex' → exprMatches tags ex' = false) := by
  intro cfg
  induction cfg with
  | nil => intro i j it h; simp [findFilterMatch] at h
  | cons item items ih =>
    intro i j it h
    cases hr : findExprMatch tags item.filters with
    | some j₀ =>
      rw [findFilterMatch, hr] at h
      simp only [Option.some.injEq, Prod.mk.injEq] at h
      obtain ⟨hi, hj, hit⟩ := h
      subst hi; subst hj; subst hit
      obtain ⟨⟨ex, hex, hexm⟩, hmin⟩ := findExprMatch_some tags item.filters j₀ hr
      exact ⟨rfl, ⟨ex, hex, hexm⟩, hmin, fun i' it' hi' _ => absurd hi' (by omega)⟩
    | none =>
      rw [findFilterMatch, hr] at h
      cases hrec : findFilterMatch tags items with
      | none => rw [hrec] at h; exact absurd h (by simp)
      | some p =>
        rw [hrec] at h
        obtain ⟨i₀, j₀, it₀⟩ := p
        simp only [Option.map_some', Option.some.injEq, Prod.mk.injEq] at h
        obtain ⟨hi, hj, hit⟩ := h
        subst hi; subst hj; subst hit
        obtain ⟨hget, hexists, hjmin, himin⟩ := ih i₀ j₀ it₀ hrec
        refine ⟨by simpa using hget, hexists, hjmin, ?_⟩
        intro i' it' hi' hget' j' ex' hex'
        cases i' with
        | zero =>
          simp only [List.get?_cons_zero, Option.some.injEq] at hget'
          subst hget'
          exact findExprMatch_none tags item.filters hr j' ex' hex'
        | succ i'' =>
          exact himin i'' it' (by omega) (by simpa using hget') j' ex' hex'

/-- A pointwise sufficient condition for an (item, expression) index pair not
to match. -/
theorem exprMatchesAt_eq_false_of (cfg : List FilterItem) (tags : Tags) (i j : Nat)
    (h : ∀ it', cfg.get? i = some it' →
      ∀ ex', it'.filters.get? j = some ex' → exprMatches tags ex' = false) :
    exprMatchesAt cfg tags i j = false := by
  unfold exprMatchesAt
  cases hg : cfg.get? i with
  | none => rfl
  | some it' =>
    show (match it'.filters.get? j with
          | none => false
          | some ex => exprMatches tags ex) = false
    cases hg2 : it'.filters.get? j with
    | none => rfl
    | some ex' => exact h it' hg ex' hg2

/-- Claim C2: a stored POI carries the symbol and the (filter-item,
filter-expression) indices of the first fully-matching pair in table order —
every lexicographically earlier pair fails to match, so of two rules that
could both match, the earlier one's symbol is stored. -/
theorem C2_first_match_wins (crp : Option String → Option Int)
    (crr : String → Option String → Option Int) (mr : Int) (rk : String)
    (cfg : List FilterItem) (e : Entity) (r : PoiRecord)
    (h : poiStep crp crr mr rk cfg e = some r) :
    (∃ it, cfg.get? r.filter_item = some it ∧ r.symbol = it.symbol)
    ∧ exprMatchesAt cfg e.tags r.filter_item r.filter_expression = true
    ∧ (∀ i j, i < r.filter_item ∨ (i = r.filter_item ∧ j < r.filter_expression) →
        exprMatchesAt cfg e.tags i j = false) := by
  obtain ⟨pid, nm, i, j, it, hid, hnm, hmatch, hfi, hfe, hsym, _, _, _, _⟩ :=
    poiStep_some_inv crp crr mr rk cfg e r h
  subst hfi; subst hfe
  obtain ⟨hget, ⟨ex, hex, hexm⟩, hjmin, himin⟩ :=
    findFilterMatch_some e.tags cfg r.filter_item r.filter_expression it hmatch
  refine ⟨⟨it, hget, hsym⟩, ?_, ?_⟩
  · simp only [exprMatchesAt, hget, hex]
    exact hexm
  · intro i' j' hlt
    rcases hlt with hlt | ⟨rfl, hlt⟩
    · exact exprMatchesAt_eq_false_of cfg e.tags i' j'
        (fun it' hget' ex' hex' => himin i' it' hlt hget' j' ex' hex')
    · refine exprMatchesAt_eq_false_of cfg e.tags r.filter_item j'
        (fun it' hget' ex' hex' => ?_)
      rw [hget] at hget'
      have hit : it' = it := (Option.some.inj hget').symm
      subst hit
      exact hjmin j' ex' hlt hex'

/-- Concrete instance of C2: two filter items both match the entity; the
stored symbol is the first item's "symA", never the second's. -/
theorem C2_witness :
    (∃ it, ([⟨"symA", [⟨[("amenity", Pred.present)]⟩]⟩,
             ⟨"symB", [⟨[("amenity", Pred.present)]⟩]⟩] : List FilterItem).get?
          (PoiRecord.filter_item ⟨7, "N", "r", 0, 0, 1, "pt", "symA"⟩) = some it
        ∧ PoiRecord.symbol ⟨7, "N", "r", 0, 0, 1, "pt", "symA"⟩ = it.symbol)
    ∧ exprMatchesAt
        [⟨"symA", [⟨[("amenity", Pred.present)]⟩]⟩,
         ⟨"symB", [⟨[("amenity", Pred.present)]⟩]⟩]
        (Entity.tags ⟨some 7, [("name", "N"), ("amenity", "cafe")], "n", none, "pt"⟩)
        (PoiRecord.filter_item ⟨7, "N", "r", 0, 0, 1, "pt", "symA"⟩)
        (PoiRecord.filter_expression ⟨7, "N", "r", 0, 0, 1, "pt", "symA"⟩) = true
    ∧ (∀ i j, i < PoiRecord.filter_item ⟨7, "N", "r", 0, 0, 1, "pt", "symA"⟩
          ∨ (i = PoiRecord.filter_item ⟨7, "N", "r", 0, 0, 1, "pt", "symA"⟩
             ∧ j < PoiRecord.filter_expression ⟨7, "N", "r", 0, 0, 1, "pt", "symA"⟩) →
        exprMatchesAt
          [⟨"symA", [⟨[("amenity", Pred.present)]⟩]⟩,
           ⟨"symB", [⟨[("amenity", Pred.present)]⟩]⟩]
          (Entity.tags ⟨some 7, [("name", "N"), ("amenity", "cafe")], "n", none, "pt"⟩)
          i j = false) :=
  C2_first_match_wins (fun _ => some 1) (fun _ _ => some 1) 30 "r"
    [⟨"symA", [⟨[("amenity", Pred.present)]⟩]⟩,
     ⟨"symB", [⟨[("amenity", Pred.present)]⟩]⟩]
    ⟨some 7, [("name", "N"), ("amenity", "cafe")], "n", none, "pt"⟩
    ⟨7, "N", "r", 0, 0, 1, "pt", "symA"⟩ rfl

/-- Claim C9: calling find_regions twice with geometrically equal shapes
(equal geometry content, whatever the object identities) returns identical
ordered results, and the second call is served from the region-lookup cache
with zero catalog nodes visited — no tree descent. -/
theorem C9_repeated_lookup_cached (its : String → String → Bool)
    (f : RegionFinder) (s₁ s₂ : Shape) (heq : s₁.content = s₂.content) :
    (find_regions its (find_regions its f s₁).2.1 s₂).1 = (find_regions its f s₁).1
    ∧ (find_regions its (find_regions its f s₁).2.1 s₂).2.2 = 0 := by
  have hkey : canonicalKey s₂ = canonicalKey s₁ := heq.symm
  cases hc : f.cache.lookup (canonicalKey s₁) with
  | some keys =>
    have h1 : find_regions its f s₁ = (keys, f, 0) := by
      unfold find_regions
      rw [hc]
    have h2 : find_regions its f s₂ = (keys, f, 0) := by
      unfold find_regions
      rw [hkey, hc]
    rw [h1]
    rw [h2]
    exact ⟨rfl, rfl⟩
  | none =>
    have h1 : find_regions its f s₁ =
        ((findRegionsList its (canonicalKey s₁) f.roots).1,
         ⟨f.roots, (canonicalKey s₁,
            (findRegionsList its (canonicalKey s₁) f.roots).1) :: f.cache⟩,
         (findRegionsList its (canonicalKey s₁) f.roots).2) := by
      unfold find_regions
      rw [hc]
    rw [h1]
    have h2 : find_regions its
        (⟨f.roots, (canonicalKey s₁,
            (findRegionsList its (canonicalKey s₁) f.roots).1) :: f.cache⟩ : RegionFinder) s₂
        = ((findRegionsList its (canonicalKey s₁) f.roots).1,
           ⟨f.roots, (canonicalKey s₁,
              (findRegionsList its (canonicalKey s₁) f.roots).1) :: f.cache⟩, 0) := by
      unfold find_regions
      rw [hkey]
      simp [List.lookup]
    rw [h2]
    exact ⟨rfl, rfl⟩

/-- Concrete instance of C9: the same geometry content under two different
object identities; the second lookup returns the first's results with no
visited nodes. -/
theorem C9_witness :
    (find_regions (fun _ _ => true)
        (find_regions (fun _ _ => true)
          ⟨[RegionNode.mk "root" "g" []], []⟩ ⟨0, "shape"⟩).2.1 ⟨1, "shape"⟩).1
      = (find_regions (fun _ _ => true)
          ⟨[RegionNode.mk "root" "g" []], []⟩ ⟨0, "shape"⟩).1
    ∧ (find_regions (fun _ _ => true)
        (find_regions (fun _ _ => true)
          ⟨[RegionNode.mk "root" "g" []], []⟩ ⟨0, "shape"⟩).2.1 ⟨1, "shape"⟩).2.2 = 0 :=
  C9_repeated_lookup_cached (fun _ _ => true)
    ⟨[RegionNode.mk "root" "g" []], []⟩ ⟨0, "shape"⟩ ⟨1, "shape"⟩ rfl

end PoiIdx
